import Mathlib

/-!
A shallow embedding of the nt-backend-wrtc signaling backend: the session
hub (internal/hub/hub.go), the rendezvous store
(internal/rendezvous/rendezvous.go) and the WebSocket origin check
(internal/ws/handler.go), together with proofs about the specified
behaviour.  Machine integers (uint64 sequence numbers, timestamps) are
modelled as natural numbers; websocket connections are identified by a
numeric identity standing for the Go pointer.
-/

/-- The two sides of a session, the Go side strings A and B. -/
inductive Side
  | A
  | B
deriving DecidableEq

/-- The opposite side. -/
def Side.other : Side → Side
  | .A => .B
  | .B => .A

/-- A total map from sides to values, mirroring the Go maps keyed by the
side strings.  The handler validates the side query parameter to be
exactly A or B before any hub call. -/
structure SideMap (α : Type) where
  a : α
  b : α
deriving DecidableEq

def SideMap.get {α : Type} (m : SideMap α) : Side → α
  | .A => m.a
  | .B => m.b

def SideMap.set {α : Type} (m : SideMap α) : Side → α → SideMap α
  | .A, v => ⟨v, m.b⟩
  | .B, v => ⟨m.a, v⟩

/-- Connection identity: Go compares websocket.Conn pointers. -/
abbrev Conn := Nat

/-- Application (session) identifier, a string in the Go code. -/
abbrev AppId := String

/-- One queued mailbox item (hub.go mailItem): a sequence number and an
opaque payload (json.RawMessage). -/
structure MailItem where
  seq : Nat
  payload : String
deriving DecidableEq

/-- Per-session state (hub.go room).  estd models the time.Time zero
value as none. -/
structure Room where
  conns : SideMap (Option Conn)
  seq : SideMap Nat
  deliv : SideMap Nat
  box : SideMap (List MailItem)
  start : Nat
  estd : Option Nat
deriving DecidableEq

/-- The hub registry of rooms keyed by application id (hub.go Hub.rooms). -/
def Hub : Type := AppId → Option Room

def emptyHub : Hub := fun _ => none

/-- Functional update of the registry map. -/
def updateH (h : Hub) (app : AppId) (v : Option Room) : Hub :=
  fun k => if k = app then v else h k

/-- The fresh room built by Hub.get on first reference: no bound
connections, both counters and watermarks zero, empty mailboxes,
creation time now, establishment time unset. -/
def emptyRoom (now : Nat) : Room :=
  { conns := ⟨none, none⟩, seq := ⟨0, 0⟩, deliv := ⟨0, 0⟩,
    box := ⟨[], []⟩, start := now, estd := none }

/-- Hub.get: fetch the room for app, creating it on first reference. -/
def hubGet (h : Hub) (app : AppId) (now : Nat) : Room × Hub :=
  match h app with
  | some r => (r, h)
  | none => (emptyRoom now, updateH h app (some (emptyRoom now)))

/-- Outbound frames written to a connection. -/
inductive Frame
  | send (seq : Nat) (payload : String)
  | raw (msg : String)
  | event (payload : String)
  | ping (data : String)
deriving DecidableEq

/-- Result of Hub.Register: Go returns a nil error or a side-busy error. -/
inductive RegisterResult
  | ok
  | sideBusy
deriving DecidableEq

/-- Hub.Register: binds the connection to the side of the lazily created
room, failing when the side already holds a bound connection. -/
def Hub.Register (h : Hub) (app : AppId) (side : Side) (c : Conn) (now : Nat) :
    Hub × RegisterResult :=
  let rh := hubGet h app now
  match rh.1.conns.get side with
  | some _ => (rh.2, .sideBusy)
  | none =>
    (updateH h app (some { rh.1 with conns := rh.1.conns.set side (some c) }), .ok)

/-- Unbinding pass of Hub.Unregister: every side whose bound connection
is identity-equal to c is unbound. -/
def removeConn (m : SideMap (Option Conn)) (c : Conn) : SideMap (Option Conn) :=
  ⟨if m.a = some c then none else m.a, if m.b = some c then none else m.b⟩

/-- Hub.Unregister: unbind the matching sides, and delete the room once
no bound connection remains. -/
def Hub.Unregister (h : Hub) (app : AppId) (c : Conn) : Hub :=
  match h app with
  | none => h
  | some r =>
    let conns2 := removeConn r.conns c
    if conns2.a = none ∧ conns2.b = none then updateH h app none
    else updateH h app (some { r with conns := conns2 })

/-- Hub.RoomSize: number of bound connections. -/
def Hub.RoomSize (h : Hub) (app : AppId) : Nat :=
  match h app with
  | none => 0
  | some r =>
    (if r.conns.a.isSome then 1 else 0) + (if r.conns.b.isSome then 1 else 0)

/-- Hub.BroadcastEvent: best-effort JSON event to every bound connection
of one room; the registry is only read. -/
def Hub.BroadcastEvent (h : Hub) (app : AppId) (payload : String) :
    Hub × List (Conn × Frame) :=
  match h app with
  | none => (h, [])
  | some r =>
    let outA := match r.conns.a with
      | some c => [(c, Frame.event payload)]
      | none => []
    let outB := match r.conns.b with
      | some c => [(c, Frame.event payload)]
      | none => []
    (h, outA ++ outB)

/-- Hub.Broadcast: the raw frame goes unmodified to every bound
connection other than the sender; the registry is only read. -/
def Hub.Broadcast (h : Hub) (app : AppId) (sender : Conn) (raw : String) :
    Hub × List (Conn × Frame) :=
  match h app with
  | none => (h, [])
  | some r =>
    let outA := match r.conns.a with
      | some c => if c = sender then [] else [(c, Frame.raw raw)]
      | none => []
    let outB := match r.conns.b with
      | some c => if c = sender then [] else [(c, Frame.raw raw)]
      | none => []
    (h, outA ++ outB)

/-- Hub.Hello: raise the side watermark to the maximum of its current
value and deliveredUpTo, drop the leading mailbox items whose sequence
is at most the new watermark, and resend the remaining items when the
side has a bound connection.  A missing room is left untouched. -/
def Hub.Hello (h : Hub) (app : AppId) (side : Side) (deliveredUpTo : Nat) :
    Hub × List (Conn × Frame) :=
  match h app with
  | none => (h, [])
  | some r =>
    let w := max (r.deliv.get side) deliveredUpTo
    let box2 := (r.box.get side).dropWhile (fun it => decide (it.seq ≤ w))
    let r2 := { r with deliv := r.deliv.set side w, box := r.box.set side box2 }
    let out := match r.conns.get side with
      | some c => box2.map (fun it => (c, Frame.send it.seq it.payload))
      | none => []
    (updateH h app (some r2), out)

/-- Hub.Enqueue: allocate the next sequence number of the recipient side
of the lazily created room, append the item to that mailbox, and push it
immediately when the recipient has a bound connection.  The from side is
unused by the Go code. -/
def Hub.Enqueue (h : Hub) (app : AppId) (_fro : Side) (toSide : Side)
    (payload : String) (now : Nat) : Hub × List (Conn × Frame) :=
  let rh := hubGet h app now
  let r := rh.1
  let s := r.seq.get toSide
  let r2 := { r with seq := r.seq.set toSide (s + 1),
                     box := r.box.set toSide (r.box.get toSide ++ [⟨s, payload⟩]) }
  let out := match r.conns.get toSide with
    | some c => [(c, Frame.send s payload)]
    | none => []
  (updateH h app (some r2), out)

/-- Hub.AckUpTo: raise the side watermark to the maximum of its current
value and upTo and drop the leading mailbox items whose sequence is at
most upTo; nothing is written to any connection. -/
def Hub.AckUpTo (h : Hub) (app : AppId) (side : Side) (upTo : Nat) : Hub :=
  match h app with
  | none => h
  | some r =>
    let w := max (r.deliv.get side) upTo
    let box2 := (r.box.get side).dropWhile (fun it => decide (it.seq ≤ upTo))
    updateH h app (some { r with deliv := r.deliv.set side w, box := r.box.set side box2 })

/-- Hub.MarkEstablished: the first call on an existing room records the
establishment time and returns the elapsed duration since the room was
created together with true; later calls, and calls on a missing room,
return zero and false. -/
def Hub.MarkEstablished (h : Hub) (app : AppId) (now : Nat) : Hub × (Int × Bool) :=
  match h app with
  | none => (h, (0, false))
  | some r =>
    match r.estd with
    | none =>
      (updateH h app (some { r with estd := some now }),
       ((now : Int) - (r.start : Int), true))
    | some _ => (h, (0, false))

/-- Hub.Ping: control frame to the side's bound connection when present;
a no-op otherwise.  The registry is only read. -/
def Hub.Ping (h : Hub) (app : AppId) (side : Side) (data : String) :
    Hub × List (Conn × Frame) :=
  match h app with
  | none => (h, [])
  | some r =>
    match r.conns.get side with
    | some c => (h, [(c, Frame.ping data)])
    | none => (h, [])

/-- One state-mutating hub operation, for reachability statements. -/
inductive Op
  | register (app : AppId) (side : Side) (c : Conn) (now : Nat)
  | unregister (app : AppId) (c : Conn)
  | hello (app : AppId) (side : Side) (deliveredUpTo : Nat)
  | enqueue (app : AppId) (fro toSide : Side) (payload : String) (now : Nat)
  | ack (app : AppId) (side : Side) (upTo : Nat)
  | mark (app : AppId) (now : Nat)

/-- Applying one hub operation to the registry, discarding outputs. -/
def applyOp (h : Hub) : Op → Hub
  | .register app side c now => (Hub.Register h app side c now).1
  | .unregister app c => Hub.Unregister h app c
  | .hello app side d => (Hub.Hello h app side d).1
  | .enqueue app fro toSide p now => (Hub.Enqueue h app fro toSide p now).1
  | .ack app side u => Hub.AckUpTo h app side u
  | .mark app now => (Hub.MarkEstablished h app now).1

/-- Running a sequence of hub operations. -/
def runOps (h : Hub) (ops : List Op) : Hub := ops.foldl applyOp h

/-- A registry state reachable from the empty hub. -/
def Reachable (h : Hub) : Prop := ∃ ops : List Op, runOps emptyHub ops = h

/-!
The rendezvous store (internal/rendezvous/rendezvous.go).  The code
table map[string]entry is modelled as an association list; uuids are
numeric identities; crypto/rand draws are an explicit stream of raw
values, matching randUint32 whose error path is ignored here.
-/

/-- One code-table entry: session identifier and expiry. -/
structure Entry where
  appID : Nat
  exp : Nat
deriving DecidableEq

/-- The rendezvous store: code table and ttl. -/
structure Store where
  entries : List (String × Entry)
  ttl : Nat
deriving DecidableEq

/-- Whitespace trimming on both ends, modelling strings.TrimSpace
(which the inputs here only exercise on ASCII whitespace). -/
def trimSpace (s : String) : String :=
  String.mk (((s.data.dropWhile Char.isWhitespace).reverse.dropWhile
    Char.isWhitespace).reverse)

/-- Map lookup on the code table. -/
def lookupCode (m : List (String × Entry)) (c : String) : Option Entry :=
  match m with
  | [] => none
  | (k, v) :: t => if k = c then some v else lookupCode t c

/-- Map deletion on the code table. -/
def eraseCode (m : List (String × Entry)) (c : String) : List (String × Entry) :=
  match m with
  | [] => []
  | (k, v) :: t => if k = c then eraseCode t c else (k, v) :: eraseCode t c

/-- Map insertion or in-place replacement on the code table. -/
def setCode (m : List (String × Entry)) (c : String) (e : Entry) :
    List (String × Entry) :=
  match m with
  | [] => [(c, e)]
  | (k, v) :: t => if k = c then (c, e) :: t else (k, v) :: setCode t c e

/-- Outcome of Store.Redeem: success carries the session identifier and
expiry; the two failures map to HTTP 400 and 410. -/
inductive RedeemResult
  | ok (appID : Nat) (exp : Nat)
  | missingCode
  | gone
deriving DecidableEq

/-- Store.Redeem: trim whitespace, reject empty input, then consume the
entry exactly once; an absent entry is gone, an expired entry is
deleted as a side effect and reported gone. -/
def Store.Redeem (s : Store) (now : Nat) (code : String) : Store × RedeemResult :=
  let c := trimSpace code
  if c = "" then (s, .missingCode)
  else
    match lookupCode s.entries c with
    | none => (s, .gone)
    | some v =>
      if now > v.exp then ({ s with entries := eraseCode s.entries c }, .gone)
      else ({ s with entries := eraseCode s.entries c }, .ok v.appID v.exp)

/-- Formatting of a drawn random value as a 4-digit code,
fmt.Sprintf of the value modulo 10000 with format 04d. -/
def toCode4 (n : Nat) : String :=
  let m := n % 10000
  String.mk [Nat.digitChar (m / 1000), Nat.digitChar (m / 100 % 10),
             Nat.digitChar (m / 10 % 10), Nat.digitChar (m % 10)]

/-- Deletion of every expired entry, the opportunistic sweep inside
CreateCode and the janitor sweep. -/
def sweepExpired (m : List (String × Entry)) (now : Nat) : List (String × Entry) :=
  m.filter (fun p => decide (now ≤ p.2.exp))

/-- Outcome of Store.CreateCode. -/
inductive CreateResult
  | ok (code : String) (appID : Nat) (exp : Nat)
  | exhausted
deriving DecidableEq

/-- Retry loop of Store.CreateCode: up to fuel random draws, taking a
free slot or reclaiming an expired one, with the try counter i indexing
the draw stream. -/
def createLoop (now exp appID : Nat) (draws : Nat → Nat) :
    List (String × Entry) → Nat → Nat → List (String × Entry) × CreateResult
  | m, 0, _ => (m, .exhausted)
  | m, fuel + 1, i =>
    let code := toCode4 (draws i)
    match lookupCode m code with
    | some e =>
      if now > e.exp then (setCode m code ⟨appID, exp⟩, .ok code appID exp)
      else createLoop now exp appID draws m fuel (i + 1)
    | none => (setCode m code ⟨appID, exp⟩, .ok code appID exp)

/-- Store.CreateCode: when the table holds at least 10000 entries, sweep
expired entries and fail fast if it is still full; otherwise run the
bounded retry loop over the stream of random draws.  appID stands for
the freshly generated uuid. -/
def Store.CreateCode (s : Store) (now : Nat) (appID : Nat) (draws : Nat → Nat) :
    Store × CreateResult :=
  let exp := now + s.ttl
  let m1 := if 10000 ≤ s.entries.length then sweepExpired s.entries now else s.entries
  if 10000 ≤ m1.length then ({ s with entries := m1 }, .exhausted)
  else
    let res := createLoop now exp appID draws m1 10000 0
    ({ s with entries := res.1 }, res.2)

/-- A code that the retry loop may take: either no entry holds it, or
its entry is expired. -/
def freeOrExpiredB (m : List (String × Entry)) (now : Nat) (code : String) : Bool :=
  match lookupCode m code with
  | none => true
  | some e => decide (now > e.exp)

/-!
The origin check (internal/ws/handler.go originAllowed).  The Go
standard library url.Parse composed with Hostname is external to the
repository and is abstracted as the parameter parseHost, where none
models a parse error.
-/

/-- Case-insensitive string comparison modelling strings.EqualFold,
restricted to ASCII folding, computed on the character lists. -/
def eqFold (a b : String) : Bool := a.data.map Char.toLower == b.data.map Char.toLower

/-- originAllowed: an empty origin is always allowed; with a non-empty
allowlist and a parseable origin, each entry is trimmed, empty entries
are skipped, and an entry equal (case-insensitively) to the full origin
or to its hostname accepts the request. -/
def originAllowed (parseHost : String → Option String)
    (allowedOrigins : List String) (origin : String) : Bool :=
  if origin = "" then true
  else if allowedOrigins.length = 0 then false
  else
    match parseHost origin with
    | none => false
    | some host =>
      allowedOrigins.any (fun a0 =>
        let a := trimSpace a0
        if a = "" then false
        else eqFold a origin || eqFold a host)

/-!
Basic lemmas about the registry map, side maps and the code table.
-/

theorem updateH_self (h : Hub) (app : AppId) (v : Option Room) :
    updateH h app v app = v := by
  simp [updateH]

theorem updateH_ne (h : Hub) (app app2 : AppId) (v : Option Room) (hne : app2 ≠ app) :
    updateH h app v app2 = h app2 := by
  simp [updateH, hne]

theorem SideMap.get_set_self {α : Type} (m : SideMap α) (s : Side) (v : α) :
    (m.set s v).get s = v := by
  cases s <;> rfl

theorem SideMap.get_set_other {α : Type} (m : SideMap α) (s : Side) (v : α) :
    (m.set s v).get s.other = m.get s.other := by
  cases s <;> rfl

theorem lookupCode_eraseCode (m : List (String × Entry)) (c : String) :
    lookupCode (eraseCode m c) c = none := by
  induction m with
  | nil => rfl
  | cons p t ih =>
    obtain ⟨k, v⟩ := p
    by_cases hk : k = c
    · simp [eraseCode, hk, ih]
    · simp [eraseCode, lookupCode, hk, ih]

/-- C3: a live entry is redeemed exactly once.  When the trimmed code
holds a live (unexpired) entry, Redeem deletes the entry and returns
its session identifier and expiry; every later Redeem of the same code
against the resulting store reports gone and changes nothing, so at
most one Redeem of a minted code ever succeeds. -/
theorem redeem_single_use (s : Store) (c : String) (e : Entry) (now : Nat)
    (hc : trimSpace c = c) (hne : c ≠ "")
    (hl : lookupCode s.entries c = some e) (hexp : ¬ now > e.exp) :
    Store.Redeem s now c =
      ({ s with entries := eraseCode s.entries c }, .ok e.appID e.exp) ∧
    ∀ now2 : Nat,
      Store.Redeem { s with entries := eraseCode s.entries c } now2 c =
        ({ s with entries := eraseCode s.entries c }, .gone) := by
  constructor
  · simp [Store.Redeem, hc, hne, hl, hexp]
  · intro now2
    simp [Store.Redeem, hc, hne, lookupCode_eraseCode]

def sR : Store := ⟨[("1234", ⟨9, 50⟩)], 10⟩

theorem redeem_single_use_witness :
    Store.Redeem sR 5 "1234" = (⟨[], 10⟩, .ok 9 50) ∧
    Store.Redeem ⟨[], 10⟩ 6 "1234" = (⟨[], 10⟩, .gone) := by
  have h := redeem_single_use sR "1234" ⟨9, 50⟩ 5 (by decide) (by decide)
    (by decide) (by decide)
  exact ⟨h.1, h.2 6⟩

/-- C4: classification of Redeem failures.  A code that trims to empty
is rejected as missingCode, which is distinct from gone; an unknown
trimmed code reports gone; an expired entry is deleted as a side effect
while reporting gone, after which every further Redeem of that code
reports gone against an unchanged store. -/
theorem redeem_failure_classes (s : Store) (now : Nat) :
    (∀ code : String, trimSpace code = "" → Store.Redeem s now code = (s, .missingCode)) ∧
    RedeemResult.missingCode ≠ RedeemResult.gone ∧
    (∀ code : String, trimSpace code ≠ "" → lookupCode s.entries (trimSpace code) = none →
      Store.Redeem s now code = (s, .gone)) ∧
    ∀ code e, trimSpace code = code → code ≠ "" →
      lookupCode s.entries code = some e → now > e.exp →
      Store.Redeem s now code = ({ s with entries := eraseCode s.entries code }, .gone) ∧
      ∀ now2, Store.Redeem { s with entries := eraseCode s.entries code } now2 code =
        ({ s with entries := eraseCode s.entries code }, .gone) := by
  refine ⟨?_, by simp, ?_, ?_⟩
  · intro code hcode
    simp [Store.Redeem, hcode]
  · intro code hne hl
    simp [Store.Redeem, hne, hl]
  · intro code e hc hne hl hexp
    constructor
    · simp [Store.Redeem, hc, hne, hl, hexp]
    · intro now2
      simp [Store.Redeem, hc, hne, lookupCode_eraseCode]

def sR2 : Store := ⟨[("7777", ⟨3, 20⟩)], 10⟩

theorem redeem_failure_witness :
    Store.Redeem sR2 60 " " = (sR2, .missingCode) ∧
    Store.Redeem sR2 60 "9999" = (sR2, .gone) ∧
    Store.Redeem sR2 60 "7777" = (⟨[], 10⟩, .gone) ∧
    Store.Redeem ⟨[], 10⟩ 61 "7777" = (⟨[], 10⟩, .gone) := by
  have h := redeem_failure_classes sR2 60
  have h4 := h.2.2.2 "7777" ⟨3, 20⟩ (by decide) (by decide) (by decide) (by decide)
  exact ⟨h.1 " " (by decide), h.2.2.1 "9999" (by decide) (by decide), h4.1, h4.2 61⟩

/-- C7: registration on a busy side fails without disturbing any state.
When the side of an existing session already holds a bound connection,
Register returns sideBusy and the whole registry is returned unchanged;
when the side is free, Register binds the given connection and succeeds. -/
theorem register_busy_or_bind (h : Hub) (app : AppId) (sd : Side) (c c0 : Conn)
    (now : Nat) (r : Room) (hr : h app = some r) :
    (r.conns.get sd = some c0 → Hub.Register h app sd c now = (h, .sideBusy)) ∧
    (r.conns.get sd = none → Hub.Register h app sd c now =
      (updateH h app (some { r with conns := r.conns.set sd (some c) }), .ok)) := by
  constructor
  · intro hb
    simp [Hub.Register, hubGet, hr, hb]
  · intro hfree
    simp [Hub.Register, hubGet, hr, hfree]

def rW : Room :=
  { conns := ⟨some 3, none⟩, seq := ⟨0, 0⟩, deliv := ⟨0, 0⟩,
    box := ⟨[], []⟩, start := 0, estd := none }

def hW : Hub := updateH emptyHub "w" (some rW)

theorem register_busy_or_bind_witness :
    Hub.Register hW "w" Side.A 9 1 = (hW, .sideBusy) ∧
    Hub.Register hW "w" Side.B 9 1 =
      (updateH hW "w" (some { rW with conns := ⟨some 3, some 9⟩ }), .ok) := by
  have ha := register_busy_or_bind hW "w" Side.A 9 3 1 rW (by decide)
  have hb := register_busy_or_bind hW "w" Side.B 9 3 1 rW (by decide)
  exact ⟨ha.1 rfl, hb.2 rfl⟩

/-- Iterated MarkEstablished calls at the given times, counting the
calls that report true. -/
def markRun (h : Hub) (app : AppId) : List Nat → Nat
  | [] => 0
  | now :: rest =>
    let res := Hub.MarkEstablished h app now
    (if res.2.2 then 1 else 0) + markRun res.1 app rest

theorem markRun_estd_some (app : AppId) (t : Nat) :
    ∀ (nows : List Nat) (h : Hub) (r : Room), h app = some r → r.estd = some t →
      markRun h app nows = 0 := by
  intro nows
  induction nows with
  | nil => intro h r _ _; rfl
  | cons n rest ih =>
    intro h r hr he
    have hm : Hub.MarkEstablished h app n = (h, (0, false)) := by
      simp [Hub.MarkEstablished, hr, he]
    simp [markRun, hm, ih h r hr he]

/-- C6: exactly-once establishment.  On an existing session whose
establishment time is unset, MarkEstablished records it and returns the
elapsed time since creation paired with true; once it is set, every
call returns zero and false; over any nonempty run of MarkEstablished
calls, exactly one reports true. -/
theorem markEstablished_exactly_once (h : Hub) (app : AppId) (r : Room) (now : Nat)
    (hr : h app = some r) :
    (r.estd = none → Hub.MarkEstablished h app now =
      (updateH h app (some { r with estd := some now }),
       ((now : Int) - (r.start : Int), true))) ∧
    (∀ t, r.estd = some t → Hub.MarkEstablished h app now = (h, (0, false))) ∧
    (r.estd = none → ∀ nows : List Nat, nows ≠ [] → markRun h app nows = 1) ∧
    (∀ t, r.estd = some t → ∀ nows : List Nat, markRun h app nows = 0) := by
  refine ⟨?_, ?_, ?_, ?_⟩
  · intro he
    simp [Hub.MarkEstablished, hr, he]
  · intro t he
    simp [Hub.MarkEstablished, hr, he]
  · intro he nows hne
    cases nows with
    | nil => exact absurd rfl hne
    | cons n rest =>
      have hm : Hub.MarkEstablished h app n =
          (updateH h app (some { r with estd := some n }),
           ((n : Int) - (r.start : Int), true)) := by
        simp [Hub.MarkEstablished, hr, he]
      have h0 : markRun (updateH h app (some { r with estd := some n })) app rest = 0 :=
        markRun_estd_some app n rest _ { r with estd := some n }
          (updateH_self h app (some { r with estd := some n })) rfl
      simp [markRun, hm, h0]
  · intro t he nows
    exact markRun_estd_some app t nows h r hr he

theorem markEstablished_exactly_once_witness :
    Hub.MarkEstablished hW "w" 4 =
      (updateH hW "w" (some { rW with estd := some 4 }), (4, true)) ∧
    markRun hW "w" [4, 5, 6] = 1 := by
  have h := markEstablished_exactly_once hW "w" rW 4 (by decide)
  refine ⟨?_, h.2.2.1 rfl [4, 5, 6] (by decide)⟩
  simpa using h.1 rfl

/-- Strictly ascending mailbox sequence order. -/
def boxSorted (l : List MailItem) : Prop := l.Pairwise (fun x y => x.seq < y.seq)

instance (l : List MailItem) : Decidable (boxSorted l) := by
  unfold boxSorted
  infer_instance

theorem dropWhile_eq_filter_of_sorted (upTo : Nat) :
    ∀ l : List MailItem, boxSorted l →
      l.dropWhile (fun it => decide (it.seq ≤ upTo)) =
        l.filter (fun it => decide (upTo < it.seq)) := by
  intro l
  induction l with
  | nil => intro _; rfl
  | cons x t ih =>
    intro hs
    rcases List.pairwise_cons.mp hs with ⟨hx, ht⟩
    by_cases hle : x.seq ≤ upTo
    · simp [List.dropWhile_cons, List.filter_cons, hle, Nat.not_lt.mpr hle, ih ht]
    · have hlt : upTo < x.seq := Nat.not_le.mp hle
      have hall : ∀ y ∈ t, decide (upTo < y.seq) = true := by
        intro y hy
        simp [Nat.lt_trans hlt (hx y hy)]
      simp [List.dropWhile_cons, List.filter_cons, hle, hlt, List.filter_eq_self.mpr hall]

/-- C8: pure acknowledgment.  On an existing session with a sorted
mailbox, AckUpTo raises the side watermark to the maximum of its
current value and upTo, keeps exactly the mailbox items with sequence
strictly above upTo, and leaves every other piece of state — the other
side's mailbox and watermark, both sequence counters, the bindings, the
creation and establishment times, and every other session — unchanged.
The operation produces no outbound frames, which the embedding
expresses by its result type carrying no output list. -/
theorem ackUpTo_spec (h : Hub) (app : AppId) (sd : Side) (upTo : Nat) (r : Room)
    (hr : h app = some r) (hsorted : boxSorted (r.box.get sd)) :
    Hub.AckUpTo h app sd upTo =
      updateH h app (some { r with
        deliv := r.deliv.set sd (max (r.deliv.get sd) upTo),
        box := r.box.set sd ((r.box.get sd).filter (fun it => decide (upTo < it.seq))) }) ∧
    (∀ app2, app2 ≠ app → Hub.AckUpTo h app sd upTo app2 = h app2) ∧
    ∃ r2, Hub.AckUpTo h app sd upTo app = some r2 ∧
      r2.deliv.get sd = max (r.deliv.get sd) upTo ∧
      (∀ it ∈ r2.box.get sd, upTo < it.seq) ∧
      (∀ it ∈ r.box.get sd, upTo < it.seq → it ∈ r2.box.get sd) ∧
      r2.box.get sd.other = r.box.get sd.other ∧
      r2.deliv.get sd.other = r.deliv.get sd.other ∧
      r2.seq = r.seq ∧ r2.conns = r.conns ∧ r2.start = r.start ∧ r2.estd = r.estd := by
  have hbox := dropWhile_eq_filter_of_sorted upTo (r.box.get sd) hsorted
  have heq : Hub.AckUpTo h app sd upTo =
      updateH h app (some { r with
        deliv := r.deliv.set sd (max (r.deliv.get sd) upTo),
        box := r.box.set sd ((r.box.get sd).filter (fun it => decide (upTo < it.seq))) }) := by
    simp [Hub.AckUpTo, hr, hbox]
  refine ⟨heq, ?_, ?_⟩
  · intro app2 hne
    rw [heq]
    exact updateH_ne h app app2 _ hne
  · refine ⟨{ r with
        deliv := r.deliv.set sd (max (r.deliv.get sd) upTo),
        box := r.box.set sd ((r.box.get sd).filter (fun it => decide (upTo < it.seq))) },
      by rw [heq, updateH_self], ?_, ?_, ?_, ?_, ?_, rfl, rfl, rfl, rfl⟩
    · exact SideMap.get_set_self r.deliv sd _
    · intro it hit
      rw [SideMap.get_set_self] at hit
      simpa using (List.mem_filter.mp hit).2
    · intro it hit hlt
      rw [SideMap.get_set_self]
      exact List.mem_filter.mpr ⟨hit, by simpa using hlt⟩
    · exact SideMap.get_set_other r.box sd _
    · exact SideMap.get_set_other r.deliv sd _

def rAckW : Room :=
  { conns := ⟨none, none⟩, seq := ⟨0, 4⟩, deliv := ⟨0, 0⟩,
    box := ⟨[], [⟨1, "x"⟩, ⟨3, "y"⟩]⟩, start := 0, estd := none }

def hAckW : Hub := updateH emptyHub "k" (some rAckW)

theorem ackUpTo_spec_witness :
    Hub.AckUpTo hAckW "k" Side.B 2 "k" =
      some { rAckW with deliv := ⟨0, 2⟩, box := ⟨[], [⟨3, "y"⟩]⟩ } := by
  have h := ackUpTo_spec hAckW "k" Side.B 2 rAckW (by decide) (by decide)
  rw [h.1]
  decide

/-!
Reachability invariant of the mailbox state.
-/

theorem SideMap.eq_of_parts {α : Type} (m : SideMap α) (x y : α)
    (ha : m.a = x) (hb : m.b = y) : m = ⟨x, y⟩ := by
  cases m
  subst ha
  subst hb
  rfl

theorem SideMap.get_set_ne {α : Type} (m : SideMap α) {s t : Side} (v : α)
    (h : t ≠ s) : (m.set s v).get t = m.get t := by
  cases s <;> cases t <;> first | rfl | exact absurd rfl h

theorem emptyRoom_conns (now : Nat) (sd : Side) :
    (emptyRoom now).conns.get sd = none := by
  cases sd <;> rfl

theorem sublist_dropWhile {α : Type} (p : α → Bool) :
    ∀ l : List α, List.Sublist (l.dropWhile p) l := by
  intro l
  induction l with
  | nil => simp
  | cons x t ih =>
    by_cases hx : p x
    · rw [List.dropWhile_cons, if_pos hx]
      exact ih.cons x
    · rw [List.dropWhile_cons, if_neg hx]

/-- Mailbox invariant of one room maintained by the code: each side's
mailbox is in strictly ascending sequence order with every queued
sequence number strictly below that side's next-sequence counter. -/
def RoomInv (r : Room) : Prop :=
  ∀ s : Side, boxSorted (r.box.get s) ∧ ∀ it ∈ r.box.get s, it.seq < r.seq.get s

/-- Mailbox invariant of the whole registry. -/
def HubInv (h : Hub) : Prop := ∀ app r, h app = some r → RoomInv r

theorem roomInv_emptyRoom (now : Nat) : RoomInv (emptyRoom now) := by
  intro s
  cases s <;> simp [emptyRoom, boxSorted, SideMap.get]

theorem hubInv_empty : HubInv emptyHub := by
  intro app r hr
  simp [emptyHub] at hr

theorem hubInv_update (h : Hub) (app : AppId) (v : Option Room)
    (hh : HubInv h) (hv : ∀ r, v = some r → RoomInv r) :
    HubInv (updateH h app v) := by
  intro app2 r hr
  by_cases he : app2 = app
  · subst he
    rw [updateH_self] at hr
    exact hv r hr
  · rw [updateH_ne h app app2 v he] at hr
    exact hh app2 r hr

theorem roomInv_set_conns (r : Room) (m : SideMap (Option Conn))
    (hi : RoomInv r) : RoomInv { r with conns := m } := hi

theorem roomInv_set_estd (r : Room) (v : Option Nat)
    (hi : RoomInv r) : RoomInv { r with estd := v } := hi

theorem roomInv_enqueue (r : Room) (toSide : Side) (p : String) (hi : RoomInv r) :
    RoomInv { r with
      seq := r.seq.set toSide (r.seq.get toSide + 1),
      box := r.box.set toSide (r.box.get toSide ++ [⟨r.seq.get toSide, p⟩]) } := by
  intro t
  rcases hi t with ⟨hsor, hbnd⟩
  by_cases ht : t = toSide
  · subst ht
    constructor
    · show boxSorted ((r.box.set t (r.box.get t ++ [⟨r.seq.get t, p⟩])).get t)
      rw [SideMap.get_set_self]
      refine List.pairwise_append.mpr ⟨hsor, List.pairwise_singleton _ _, ?_⟩
      intro x hx y hy
      rw [List.mem_singleton] at hy
      subst hy
      exact hbnd x hx
    · intro it hit
      rw [SideMap.get_set_self] at hit ⊢
      rcases List.mem_append.mp hit with hold | hnew
      · exact Nat.lt_succ_of_lt (hbnd it hold)
      · rw [List.mem_singleton] at hnew
        subst hnew
        exact Nat.lt_succ_self _
  · constructor
    · show boxSorted ((r.box.set toSide _).get t)
      rw [SideMap.get_set_ne _ _ ht]
      exact hsor
    · intro it hit
      rw [SideMap.get_set_ne _ _ ht] at hit
      rw [SideMap.get_set_ne _ _ ht]
      exact hbnd it hit

theorem roomInv_trim (r : Room) (sd : Side) (w : Nat) (f : MailItem → Bool)
    (hi : RoomInv r) :
    RoomInv { r with
      deliv := r.deliv.set sd w,
      box := r.box.set sd ((r.box.get sd).dropWhile f) } := by
  intro t
  rcases hi t with ⟨hsor, hbnd⟩
  by_cases ht : t = sd
  · subst ht
    constructor
    · show boxSorted ((r.box.set t ((r.box.get t).dropWhile f)).get t)
      rw [SideMap.get_set_self]
      exact List.Pairwise.sublist (sublist_dropWhile f (r.box.get t)) hsor
    · intro it hit
      rw [SideMap.get_set_self] at hit
      exact hbnd it ((sublist_dropWhile f (r.box.get t)).subset hit)
  · constructor
    · show boxSorted ((r.box.set sd _).get t)
      rw [SideMap.get_set_ne _ _ ht]
      exact hsor
    · intro it hit
      rw [SideMap.get_set_ne _ _ ht] at hit
      exact hbnd it hit

theorem applyOp_inv (h : Hub) (op : Op) (hh : HubInv h) : HubInv (applyOp h op) := by
  cases op with
  | register app sd c now =>
    show HubInv (Hub.Register h app sd c now).1
    cases hx : h app with
    | none =>
      rw [Hub.Register, hubGet, hx]
      rw [emptyRoom_conns]
      exact hubInv_update h app _ hh
        (fun r2 hr2 => by
          cases hr2
          exact roomInv_set_conns _ _ (roomInv_emptyRoom now))
    | some r =>
      rw [Hub.Register, hubGet, hx]
      cases hc : r.conns.get sd with
      | some c0 => exact hh
      | none =>
        exact hubInv_update h app _ hh
          (fun r2 hr2 => by
            cases hr2
            exact roomInv_set_conns _ _ (hh app r hx))
  | unregister app c =>
    show HubInv (Hub.Unregister h app c)
    cases hx : h app with
    | none => rw [Hub.Unregister, hx]; exact hh
    | some r =>
      simp only [Hub.Unregister, hx]
      by_cases hcc : (removeConn r.conns c).a = none ∧ (removeConn r.conns c).b = none
      · rw [if_pos hcc]
        exact hubInv_update h app none hh (fun r2 hr2 => by cases hr2)
      · rw [if_neg hcc]
        exact hubInv_update h app _ hh
          (fun r2 hr2 => by
            cases hr2
            exact roomInv_set_conns _ _ (hh app r hx))
  | hello app sd d =>
    show HubInv (Hub.Hello h app sd d).1
    cases hx : h app with
    | none => rw [Hub.Hello, hx]; exact hh
    | some r =>
      rw [Hub.Hello, hx]
      exact hubInv_update h app _ hh
        (fun r2 hr2 => by
          cases hr2
          exact roomInv_trim r sd _ _ (hh app r hx))
  | enqueue app fro toSide p now =>
    show HubInv (Hub.Enqueue h app fro toSide p now).1
    cases hx : h app with
    | none =>
      rw [Hub.Enqueue, hubGet, hx]
      exact hubInv_update h app _ hh
        (fun r2 hr2 => by
          cases hr2
          exact roomInv_enqueue _ toSide p (roomInv_emptyRoom now))
    | some r =>
      rw [Hub.Enqueue, hubGet, hx]
      exact hubInv_update h app _ hh
        (fun r2 hr2 => by
          cases hr2
          exact roomInv_enqueue r toSide p (hh app r hx))
  | ack app sd u =>
    show HubInv (Hub.AckUpTo h app sd u)
    cases hx : h app with
    | none => rw [Hub.AckUpTo, hx]; exact hh
    | some r =>
      rw [Hub.AckUpTo, hx]
      exact hubInv_update h app _ hh
        (fun r2 hr2 => by
          cases hr2
          exact roomInv_trim r sd _ _ (hh app r hx))
  | mark app now =>
    show HubInv (Hub.MarkEstablished h app now).1
    cases hx : h app with
    | none => rw [Hub.MarkEstablished, hx]; exact hh
    | some r =>
      simp only [Hub.MarkEstablished, hx]
      cases he : r.estd with
      | none =>
        simp only [he]
        exact hubInv_update h app _ hh
          (fun r2 hr2 => by
            cases hr2
            exact roomInv_set_estd _ _ (hh app r hx))
      | some t =>
        simp only [he]
        exact hh

theorem runOps_inv (ops : List Op) : ∀ h : Hub, HubInv h → HubInv (runOps h ops) := by
  induction ops with
  | nil => intro h hh; exact hh
  | cons op rest ih =>
    intro h hh
    exact ih (applyOp h op) (applyOp_inv h op hh)

/-- C2 (amended): every registry state reachable from the empty hub by
hub operations satisfies, for every session and side, that the mailbox
is in strictly ascending sequence order with every queued sequence
number strictly below the side's next-sequence counter.  The claimed
lower bound by the watermark does not hold and is refuted separately. -/
theorem reachable_mailbox_invariant (h : Hub) (hr : Reachable h) : HubInv h := by
  obtain ⟨ops, rfl⟩ := hr
  exact runOps_inv ops emptyHub hubInv_empty

def hC2 : Hub := (Hub.Enqueue emptyHub "s" Side.A Side.B "p" 0).1

def rC2 : Room :=
  { conns := ⟨none, none⟩, seq := ⟨0, 1⟩, deliv := ⟨0, 0⟩,
    box := ⟨[], [⟨0, "p"⟩]⟩, start := 0, estd := none }

theorem reachable_mailbox_invariant_witness : HubInv hC2 :=
  reachable_mailbox_invariant hC2 ⟨[Op.enqueue "s" Side.A Side.B "p" 0], rfl⟩

/-- C2 counterexample: after the very first Enqueue the reachable state
holds a mailbox item whose sequence number 0 is not strictly greater
than side B's watermark 0, so the claimed invariant fails. -/
theorem mailbox_watermark_invariant_fails :
    Reachable hC2 ∧
    hC2 "s" = some rC2 ∧
    (⟨0, "p"⟩ : MailItem) ∈ rC2.box.get Side.B ∧
    ¬ rC2.deliv.get Side.B < (⟨0, "p"⟩ : MailItem).seq := by
  exact ⟨⟨[Op.enqueue "s" Side.A Side.B "p" 0], rfl⟩, by decide, by decide, by decide⟩

/-!
The resume-after-reconnect scenario and the registry lifecycle.
-/

def c1Enq : Hub × List (Conn × Frame) :=
  Hub.Enqueue emptyHub "s" Side.A Side.B "hi" 0

def c1Reg : Hub × RegisterResult := Hub.Register c1Enq.1 "s" Side.B 7 0

def c1Hel : Hub × List (Conn × Frame) := Hub.Hello c1Reg.1 "s" Side.B 0

/-- C1: evaluation of the specified scenario on the code.  Side A
enqueues a payload for B while B is unbound (the item gets sequence 0
and no immediate push happens), B binds a connection and sends hello
with deliveredUpTo 0 — and receives nothing: the new watermark is
max 0 0 = 0, the trim drops the queued item because its sequence 0 is
not strictly greater than 0, and the replay loop sends no frame, so
the first mailbox item is lost on this path. -/
theorem hello_loses_first_mailbox_item :
    c1Enq.2 = [] ∧
    (c1Enq.1 "s").map (fun r => r.box.get Side.B) = some [⟨0, "hi"⟩] ∧
    c1Reg.2 = RegisterResult.ok ∧
    c1Hel.2 = [] ∧
    (c1Hel.1 "s").map (fun r => r.box.get Side.B) = some [] := by
  decide

def hC10 : Hub := (Hub.Enqueue emptyHub "q" Side.A Side.B "p" 0).1

/-- C10 counterexample: a session created by Enqueue has no bound
connections; Unregister with a connection that is bound nowhere still
deletes it, so deletion does not happen exactly when the given
connection is identity-equal to a bound one whose removal unbinds the
last side. -/
theorem unregister_deletes_connless_session :
    (hC10 "q").map (fun r => r.conns) = some ⟨none, none⟩ ∧
    Hub.Unregister hC10 "q" 99 "q" = none := by
  decide

/-- C10 (amended): the session set changes only through Register and
Enqueue, which create the session on first reference, and through
Unregister, which deletes the session exactly when no side remains
bound after unbinding every side whose connection is identity-equal to
the given one (in particular a session with no bound connections is
deleted by any Unregister).  Hello, AckUpTo, MarkEstablished,
Unregister on a missing session leave the registry unchanged (and
MarkEstablished returns zero and false), Broadcast, BroadcastEvent and
Ping never change the registry, no operation touches any other
session's slot, and Hello, AckUpTo and MarkEstablished on an existing
session preserve that session's presence in the registry. -/
theorem session_registry_lifecycle (h : Hub) (app : AppId) (sd fro toSide : Side)
    (d u now : Nat) (c : Conn) (raw pl data payload : String) :
    (h app = none →
      (Hub.Hello h app sd d).1 = h ∧ (Hub.Hello h app sd d).2 = [] ∧
      Hub.AckUpTo h app sd u = h ∧
      Hub.MarkEstablished h app now = (h, (0, false)) ∧
      Hub.Unregister h app c = h) ∧
    (Hub.Broadcast h app c raw).1 = h ∧
    (Hub.BroadcastEvent h app pl).1 = h ∧
    (Hub.Ping h app sd data).1 = h ∧
    ((Hub.Register h app sd c now).1 app).isSome = true ∧
    ((Hub.Enqueue h app fro toSide payload now).1 app).isSome = true ∧
    (∀ app2, app2 ≠ app →
      (Hub.Register h app sd c now).1 app2 = h app2 ∧
      (Hub.Enqueue h app fro toSide payload now).1 app2 = h app2 ∧
      (Hub.Hello h app sd d).1 app2 = h app2 ∧
      Hub.AckUpTo h app sd u app2 = h app2 ∧
      (Hub.MarkEstablished h app now).1 app2 = h app2 ∧
      Hub.Unregister h app c app2 = h app2) ∧
    (∀ r, h app = some r →
      (Hub.Unregister h app c app = none ↔ removeConn r.conns c = ⟨none, none⟩) ∧
      (removeConn r.conns c ≠ ⟨none, none⟩ →
        Hub.Unregister h app c app = some { r with conns := removeConn r.conns c })) ∧
    (∀ r, h app = some r →
      ((Hub.Hello h app sd d).1 app).isSome = true ∧
      (Hub.AckUpTo h app sd u app).isSome = true ∧
      ((Hub.MarkEstablished h app now).1 app).isSome = true) := by
  refine ⟨?_, ?_, ?_, ?_, ?_, ?_, ?_, ?_, ?_⟩
  · intro hx
    refine ⟨?_, ?_, ?_, ?_, ?_⟩ <;> simp [Hub.Hello, Hub.AckUpTo, Hub.MarkEstablished,
      Hub.Unregister, hx]
  · cases hx : h app <;> simp [Hub.Broadcast, hx]
  · cases hx : h app <;> simp [Hub.BroadcastEvent, hx]
  · cases hx : h app with
    | none => simp [Hub.Ping, hx]
    | some r =>
      simp only [Hub.Ping, hx]
      cases hc : r.conns.get sd <;> simp [hc]
  · cases hx : h app with
    | none =>
      simp only [Hub.Register, hubGet, hx, emptyRoom_conns]
      rw [updateH_self]
      rfl
    | some r =>
      simp only [Hub.Register, hubGet, hx]
      cases hc : r.conns.get sd with
      | some c0 => simp [hx]
      | none => simp [updateH_self]
  · cases hx : h app <;>
      simp only [Hub.Enqueue, hubGet, hx] <;> rw [updateH_self] <;> rfl
  · intro app2 hne
    refine ⟨?_, ?_, ?_, ?_, ?_, ?_⟩
    · cases hx : h app with
      | none =>
        simp only [Hub.Register, hubGet, hx, emptyRoom_conns]
        exact updateH_ne h app app2 _ hne
      | some r =>
        simp only [Hub.Register, hubGet, hx]
        cases hc : r.conns.get sd with
        | some c0 => rfl
        | none => exact updateH_ne h app app2 _ hne
    · cases hx : h app <;>
        simp only [Hub.Enqueue, hubGet, hx] <;> exact updateH_ne h app app2 _ hne
    · cases hx : h app with
      | none => simp [Hub.Hello, hx]
      | some r =>
        simp only [Hub.Hello, hx]
        exact updateH_ne h app app2 _ hne
    · cases hx : h app with
      | none => simp [Hub.AckUpTo, hx]
      | some r =>
        simp only [Hub.AckUpTo, hx]
        exact updateH_ne h app app2 _ hne
    · cases hx : h app with
      | none => simp [Hub.MarkEstablished, hx]
      | some r =>
        simp only [Hub.MarkEstablished, hx]
        cases he : r.estd with
        | none =>
          simp only [he]
          exact updateH_ne h app app2 _ hne
        | some t => simp [he]
    · cases hx : h app with
      | none => simp [Hub.Unregister, hx]
      | some r =>
        simp only [Hub.Unregister, hx]
        by_cases hcc : (removeConn r.conns c).a = none ∧ (removeConn r.conns c).b = none
        · rw [if_pos hcc]
          exact updateH_ne h app app2 _ hne
        · rw [if_neg hcc]
          exact updateH_ne h app app2 _ hne
  · intro r hx
    constructor
    · simp only [Hub.Unregister, hx]
      by_cases hcc : (removeConn r.conns c).a = none ∧ (removeConn r.conns c).b = none
      · rw [if_pos hcc, updateH_self]
        exact ⟨fun _ => SideMap.eq_of_parts _ _ _ hcc.1 hcc.2, fun _ => rfl⟩
      · rw [if_neg hcc, updateH_self]
        constructor
        · intro habs
          simp at habs
        · intro hrc
          exact absurd ⟨by rw [hrc], by rw [hrc]⟩ hcc
    · intro hrc
      simp only [Hub.Unregister, hx]
      have hcc : ¬ ((removeConn r.conns c).a = none ∧ (removeConn r.conns c).b = none) := by
        intro habs
        exact hrc (SideMap.eq_of_parts _ _ _ habs.1 habs.2)
      rw [if_neg hcc, updateH_self]
  · intro r hx
    refine ⟨?_, ?_, ?_⟩
    · simp [Hub.Hello, hx, updateH_self]
    · simp [Hub.AckUpTo, hx, updateH_self]
    · simp only [Hub.MarkEstablished, hx]
      cases he : r.estd with
      | none => simp [he, updateH_self]
      | some t => simp [he, hx]

theorem session_registry_lifecycle_witness :
    Hub.AckUpTo hW "z" Side.A 5 = hW ∧
    ((Hub.Enqueue hW "z" Side.A Side.B "m" 2).1 "z").isSome = true ∧
    Hub.Unregister hW "w" 3 "w" = none ∧
    ((Hub.Hello hW "w" Side.A 0).1 "w").isSome = true ∧
    (Hub.AckUpTo hW "w" Side.A 5 "w").isSome = true ∧
    ((Hub.MarkEstablished hW "w" 2).1 "w").isSome = true := by
  have h1 := session_registry_lifecycle hW "z" Side.A Side.A Side.B 0 5 2 3 "" "" "" "m"
  have hx := session_registry_lifecycle hW "w" Side.A Side.A Side.B 0 5 2 3 "" "" "" "m"
  have htail := hx.2.2.2.2.2.2.2
  have hpres := htail.2 rW (by decide)
  exact ⟨(h1.1 (by decide)).2.2.1, h1.2.2.2.2.2.1,
    (htail.1 rW (by decide)).1.mpr (by decide),
    hpres.1, hpres.2.1, hpres.2.2⟩

/-!
Characterization of CreateCode.
-/

/-- The table seen by the retry loop: swept when at least 10000 entries
are present, untouched otherwise. -/
def preSweep (s : Store) (now : Nat) : List (String × Entry) :=
  if 10000 ≤ s.entries.length then sweepExpired s.entries now else s.entries

theorem createCode_eq (s : Store) (now appID : Nat) (draws : Nat → Nat) :
    Store.CreateCode s now appID draws =
      if 10000 ≤ (preSweep s now).length then
        ({ s with entries := preSweep s now }, .exhausted)
      else
        ({ s with entries :=
            (createLoop now (now + s.ttl) appID draws (preSweep s now) 10000 0).1 },
         (createLoop now (now + s.ttl) appID draws (preSweep s now) 10000 0).2) := rfl

theorem createLoop_all_live (now exp appID : Nat) (draws : Nat → Nat)
    (m : List (String × Entry)) :
    ∀ fuel i, (∀ j, j < fuel → freeOrExpiredB m now (toCode4 (draws (i + j))) = false) →
      createLoop now exp appID draws m fuel i = (m, .exhausted) := by
  intro fuel
  induction fuel with
  | zero => intro i _; rfl
  | succ fu ih =>
    intro i hall
    have h0 := hall 0 (Nat.succ_pos fu)
    rw [Nat.add_zero] at h0
    cases hl : lookupCode m (toCode4 (draws i)) with
    | none => simp [freeOrExpiredB, hl] at h0
    | some e =>
      have hexp : ¬ now > e.exp := by
        simp only [freeOrExpiredB, hl] at h0
        exact of_decide_eq_false h0
      simp only [createLoop, hl]
      rw [if_neg hexp]
      exact ih (i + 1) (fun j hj => by
        have harg : i + 1 + j = i + (j + 1) := by omega
        rw [harg]
        exact hall (j + 1) (by omega))

theorem createLoop_first_free (now exp appID : Nat) (draws : Nat → Nat)
    (m : List (String × Entry)) :
    ∀ fuel i j, j < fuel →
      freeOrExpiredB m now (toCode4 (draws (i + j))) = true →
      (∀ k, k < j → freeOrExpiredB m now (toCode4 (draws (i + k))) = false) →
      createLoop now exp appID draws m fuel i =
        (setCode m (toCode4 (draws (i + j))) ⟨appID, exp⟩,
         .ok (toCode4 (draws (i + j))) appID exp) := by
  intro fuel
  induction fuel with
  | zero => intro i j hj _ _; exact absurd hj (Nat.not_lt_zero j)
  | succ fu ih =>
    intro i j hj hfree hmin
    cases j with
    | zero =>
      simp only [Nat.add_zero] at hfree ⊢
      cases hl : lookupCode m (toCode4 (draws i)) with
      | none => simp only [createLoop, hl]
      | some e =>
        have hexp : now > e.exp := by
          simp only [freeOrExpiredB, hl] at hfree
          exact of_decide_eq_true hfree
        simp only [createLoop, hl]
        rw [if_pos hexp]
    | succ j0 =>
      have h0 := hmin 0 (Nat.succ_pos j0)
      rw [Nat.add_zero] at h0
      cases hl : lookupCode m (toCode4 (draws i)) with
      | none => simp [freeOrExpiredB, hl] at h0
      | some e =>
        have hexp : ¬ now > e.exp := by
          simp only [freeOrExpiredB, hl] at h0
          exact of_decide_eq_false h0
        simp only [createLoop, hl]
        rw [if_neg hexp]
        have harg : i + 1 + j0 = i + (j0 + 1) := by omega
        rw [ih (i + 1) j0 (by omega) (by rw [harg]; exact hfree)
          (fun k hk => by
            have harg2 : i + 1 + k = i + (k + 1) := by omega
            rw [harg2]
            exact hmin (k + 1) (by omega)), harg]

/-- C5 (amended): CreateCode fails with exhausted exactly when either
the conditionally swept table still holds at least 10000 entries, or
all 10000 bounded random draws hit in-use unexpired codes; whenever
some draw among the first 10000 hits a free or expired code (and the
table check passes), CreateCode returns that 4-digit code bound to the
supplied fresh session identifier with expiry now plus ttl, reclaiming
an expired slot in place.  Exhaustion therefore does not require the
live-entry count to equal the keyspace size. -/
theorem createCode_characterization (s : Store) (now appID : Nat) (draws : Nat → Nat) :
    (10000 ≤ (preSweep s now).length →
      Store.CreateCode s now appID draws =
        ({ s with entries := preSweep s now }, .exhausted)) ∧
    (¬ 10000 ≤ (preSweep s now).length →
      ((∀ j, j < 10000 → freeOrExpiredB (preSweep s now) now (toCode4 (draws j)) = false) →
        Store.CreateCode s now appID draws =
          ({ s with entries := preSweep s now }, .exhausted)) ∧
      (∀ j, j < 10000 →
        freeOrExpiredB (preSweep s now) now (toCode4 (draws j)) = true →
        (∀ k, k < j → freeOrExpiredB (preSweep s now) now (toCode4 (draws k)) = false) →
        Store.CreateCode s now appID draws =
          ({ s with entries := (setCode (preSweep s now) (toCode4 (draws j))
              ⟨appID, now + s.ttl⟩) },
           .ok (toCode4 (draws j)) appID (now + s.ttl)))) := by
  constructor
  · intro hfull
    rw [createCode_eq, if_pos hfull]
  · intro hnot
    constructor
    · intro hall
      rw [createCode_eq, if_neg hnot,
        createLoop_all_live now (now + s.ttl) appID draws (preSweep s now) 10000 0
          (fun j hj => by rw [Nat.zero_add]; exact hall j hj)]
    · intro j hj hfree hmin
      rw [createCode_eq, if_neg hnot,
        createLoop_first_free now (now + s.ttl) appID draws (preSweep s now) 10000 0 j hj
          (by rw [Nat.zero_add]; exact hfree)
          (fun k hk => by rw [Nat.zero_add]; exact hmin k hk)]
      simp only [Nat.zero_add]

def s5 : Store := ⟨[("0000", ⟨7, 100⟩)], 30⟩

/-- C5 counterexample: with a single live entry for code 0000 and every
random draw hitting 0000, CreateCode reports exhausted although the
table holds one entry and code 0001 is free — exhaustion without a full
keyspace. -/
theorem createCode_exhausted_with_free_codes :
    Store.CreateCode s5 0 1 (fun _ => 0) = (s5, .exhausted) ∧
    lookupCode s5.entries "0001" = none ∧
    s5.entries.length = 1 := by
  refine ⟨?_, by decide, by decide⟩
  have hnot : ¬ 10000 ≤ (preSweep s5 0).length := by decide
  rw [createCode_eq, if_neg hnot,
    createLoop_all_live 0 (0 + s5.ttl) 1 (fun _ => 0) (preSweep s5 0) 10000 0
      (fun j hj =>
        (by decide : freeOrExpiredB (preSweep s5 0) 0 (toCode4 0) = false))]
  rfl

def s5w : Store := ⟨[], 30⟩

theorem createCode_characterization_witness :
    Store.CreateCode s5w 0 1 (fun _ => 1) =
      (⟨[("0001", ⟨1, 30⟩)], 30⟩, .ok "0001" 1 30) := by
  have h := (createCode_characterization s5w 0 1 (fun _ => 1)).2 (by decide)
  have h2 := h.2 0 (by decide) (by decide) (fun k hk => absurd hk (Nat.not_lt_zero k))
  rw [h2]
  decide

/-!
Characterization of the origin check.
-/

/-- C9 (amended): with a non-absent origin the check accepts exactly
when the origin parses and some allowlist entry — after trimming
surrounding whitespace, skipping entries that trim to empty — equals
the full origin or its bare hostname case-insensitively; an absent
(empty) origin is always accepted, and with an empty allowlist every
non-empty origin is rejected. -/
theorem originAllowed_iff (parseHost : String → Option String)
    (allowed : List String) (origin : String) :
    originAllowed parseHost allowed origin = true ↔
      (origin = "" ∨ ∃ host, parseHost origin = some host ∧
        ∃ a0 ∈ allowed, trimSpace a0 ≠ "" ∧
          (eqFold (trimSpace a0) origin = true ∨ eqFold (trimSpace a0) host = true)) := by
  by_cases ho : origin = ""
  · simp [originAllowed, ho]
  · rw [originAllowed, if_neg ho]
    by_cases hlen : allowed.length = 0
    · rw [if_pos hlen]
      have hnil : allowed = [] := List.length_eq_zero.mp hlen
      subst hnil
      simp [ho]
    · rw [if_neg hlen]
      cases hp : parseHost origin with
      | none => simp [ho, hp]
      | some host =>
        constructor
        · intro hany
          rcases List.any_eq_true.mp hany with ⟨a0, ha0, hval⟩
          by_cases ht : trimSpace a0 = ""
          · simp [ht] at hval
          · simp only [if_neg ht, Bool.or_eq_true] at hval
            exact Or.inr ⟨host, rfl, a0, ha0, ht, hval⟩
        · rintro (hcon | ⟨host0, hh, a0, ha0, ht, hor⟩)
          · exact absurd hcon ho
          · have hhost : host0 = host := (Option.some.inj hh).symm
            subst hhost
            apply List.any_eq_true.mpr
            refine ⟨a0, ha0, ?_⟩
            show (if trimSpace a0 = "" then false
              else eqFold (trimSpace a0) origin || eqFold (trimSpace a0) host0) = true
            rw [if_neg ht]
            simp only [Bool.or_eq_true]
            exact hor

def parseHostX : String → Option String :=
  fun s => if s = "https://x.com" then some "x.com" else none

/-- C9 counterexample: the code trims allowlist entries before
comparing, so an entry carrying surrounding whitespace accepts an
origin that it equals neither as a full origin nor as the bare
hostname (even case-insensitively), refuting the claimed exact
acceptance condition. -/
theorem originAllowed_counterexample :
    originAllowed parseHostX [" https://x.com "] "https://x.com" = true ∧
    ¬ (("https://x.com" : String) = "" ∨
      ∃ a0 ∈ ([" https://x.com "] : List String),
        eqFold a0 "https://x.com" = true ∨ eqFold a0 "x.com" = true) := by
  decide

theorem originAllowed_iff_witness :
    originAllowed parseHostX ["x.com"] "https://x.com" = true :=
  (originAllowed_iff parseHostX ["x.com"] "https://x.com").mpr
    (Or.inr ⟨"x.com", by decide, "x.com", by decide, by decide, Or.inr (by decide)⟩)
